import Mathlib

/-!
Verification of `scripts/post-check/06_generate_dak_api_hub.py`.

This file gives a shallow embedding of the parts of the DAK API hub generator
that the verified properties talk about:

* `SchemaDetector.find_schema_files` (filename classification into buckets),
* `HTMLProcessor.inject_content_at_comment_marker` (placeholder-regex / legacy
  marker injection with the 100-character growth check),
* `OpenAPIWrapper.create_wrapper_for_schema` (per-schema OpenAPI wrapper
  synthesis and its file writes),
* `DAKApiHubGenerator.create_enumeration_schema` (catalog/enumeration schema),
* `QAReporter` (`merge_preprocessing_report`, `finalize_report`,
  `merge_with_ig_publisher_qa`).

Strings are modelled as `List Char` (Python `str`, counted in characters the
way `len` counts them).  JSON documents are modelled by the inductive
`JsonVal`; reading a file that may fail to open or parse is modelled by an
explicit `Option`-returning file system together with a parse function that is
kept abstract (a parameter) where the source calls `json.load`.  File writes
are modelled as updates to a map from path to serialized bytes; `json.dump` is
modelled by a fixed deterministic serializer.  Python's regular-expression
calls are specialized to the single pattern the source uses,
`<div\s+id="dak-api-content-placeholder"[^>]*>.*?</div>` (with DOTALL): the
lazy `.*?` together with the literal tails makes the match at a given start
position deterministic, which the definitions below implement directly.
-/

/-! ## Basic string operations (over `List Char`) -/

/-- `dropPre p s` is `some r` when `s = p ++ r`, i.e. when the literal `p` is
a prefix of `s`; otherwise `none`.  Used for matching literal pieces of the
placeholder regex. -/
def dropPre : List Char → List Char → Option (List Char)
  | [], s => some s
  | _ :: _, [] => none
  | p :: ps, c :: cs => if p = c then dropPre ps cs else none

/-- First occurrence of `needle` in `hay`: `some (before, after)` splits
`hay = before ++ needle ++ after` at the leftmost occurrence. -/
def firstOcc (needle : List Char) : List Char → Option (List Char × List Char)
  | [] => if needle = [] then some ([], []) else none
  | c :: t =>
    if needle.isPrefixOf (c :: t) then some ([], (c :: t).drop needle.length)
    else (firstOcc needle t).map (fun p => (c :: p.1, p.2))

/-- Python's `needle in hay` substring test. -/
def containsSub (needle hay : List Char) : Bool :=
  (firstOcc needle hay).isSome

/-- Python's `hay.replace(old, new)` for nonempty `old`: replaces every
non-overlapping occurrence, scanning left to right (fuel-driven so that the
kernel can evaluate it; `replaceAll` below supplies adequate fuel). -/
def replaceAllF (old new : List Char) : Nat → List Char → List Char
  | 0, s => s
  | _ + 1, [] => []
  | fuel + 1, c :: t =>
    if old.isPrefixOf (c :: t) then new ++ replaceAllF old new fuel ((c :: t).drop old.length)
    else c :: replaceAllF old new fuel t

/-- Python's `hay.replace(old, new)` (for the nonempty `old`s the source uses). -/
def replaceAll (old new hay : List Char) : List Char :=
  replaceAllF old new hay.length hay

/-- `os.path.basename`: the part of the path after the last `'/'`. -/
def basenameL (p : List Char) : List Char :=
  (p.reverse.takeWhile (fun c => c ≠ '/')).reverse

/-- `os.path.join dir name` for a relative `name` and a `dir` that does not
end in a separator (the only way the source uses it). -/
def joinPath (dir f : List Char) : List Char :=
  dir ++ '/' :: f

/-! ## JSON documents -/

/-- A parsed JSON document (`json.load` result).  Numbers are modelled as
integers; objects are key-value lists in insertion order, which is the order
Python dicts preserve and `json.dump` serializes. -/
inductive JsonVal where
  | null : JsonVal
  | bool : Bool → JsonVal
  | int : Int → JsonVal
  | str : List Char → JsonVal
  | arr : List JsonVal → JsonVal
  | obj : List (List Char × JsonVal) → JsonVal

/-- Dictionary lookup (`d[k]` / `d.get(k)` on a dict with these keys). -/
def lookupKey (k : List Char) : List (List Char × JsonVal) → Option JsonVal
  | [] => none
  | (k', v) :: rest => if k = k' then some v else lookupKey k rest

/-- Python dict assignment `d[k] = v`: overwrites in place when the key is
present (keeping its position), otherwise appends at the end (insertion
order). -/
def setKey : List (List Char × JsonVal) → List Char → JsonVal → List (List Char × JsonVal)
  | [], k, v => [(k, v)]
  | (k', v') :: rest, k, v =>
    if k' = k then (k', v) :: rest else (k', v') :: setKey rest k v

/-- Lookup of a key on a JSON value: `some` only when the value is an object
holding the key (`.get` on a non-dict raises, which callers model
separately). -/
def jLookup (v : JsonVal) (k : List Char) : Option JsonVal :=
  match v with
  | .obj kvs => lookupKey k kvs
  | _ => none

/-- Python `len` applied to a JSON value: defined for strings, arrays and
objects, raises (`none`) otherwise. -/
def pyLen : JsonVal → Option Nat
  | .str s => some s.length
  | .arr xs => some xs.length
  | .obj kvs => some kvs.length
  | _ => none

/-- Python truthiness of a JSON value (`if x:`): empty containers, empty
strings, zero, `False` and `None` are falsy. -/
def truthyJson : JsonVal → Bool
  | .null => false
  | .bool b => b
  | .int n => n ≠ 0
  | .str s => !s.isEmpty
  | .arr xs => !xs.isEmpty
  | .obj kvs => !kvs.isEmpty

/-- JSON string escaping for the serializer (quotes and backslashes; control
characters are left as-is, which is all the inputs in this pipeline need). -/
def escJsonChar (c : Char) : List Char :=
  if c = '"' then ['\\', '"']
  else if c = '\\' then ['\\', '\\'] else [c]

/-- Interleave a separator between serialized fragments. -/
def joinSep (sep : List Char) : List (List Char) → List Char
  | [] => []
  | [x] => x
  | x :: y :: rest => x ++ sep ++ joinSep sep (y :: rest)

/-- Fuel-driven core of the JSON serializer (`json.dump`): deterministic
rendering of a `JsonVal`, depth-limited by the fuel so the kernel can
evaluate it; `serializeJson` supplies adequate fuel.  The exact whitespace
layout of `json.dump(..., indent=2)` is abstracted: every property proved
below only needs the serializer to be a fixed deterministic function of the
document. -/
def serializeF : Nat → JsonVal → List Char
  | 0, _ => []
  | _ + 1, .null => "null".toList
  | _ + 1, .bool true => "true".toList
  | _ + 1, .bool false => "false".toList
  | _ + 1, .int n => (toString n).toList
  | _ + 1, .str s => '"' :: (s.flatMap escJsonChar) ++ ['"']
  | fuel + 1, .arr xs => '[' :: joinSep ", ".toList (xs.map (serializeF fuel)) ++ [']']
  | fuel + 1, .obj kvs =>
    '\x7b' :: joinSep ", ".toList
      (kvs.map (fun kv => '"' :: (kv.1.flatMap escJsonChar) ++ '"' :: ':' :: ' ' :: serializeF fuel kv.2)) ++ ['\x7d']

/-- `json.dump` of a document, as the bytes written to the file.  The fuel
bounds the nesting depth; 1000 exceeds the depth of every document this
pipeline can produce, and every property proved below is independent of the
bound (the serializer only needs to be one fixed deterministic function). -/
def serializeJson (v : JsonVal) : List Char :=
  serializeF 1000 v

/-- Fuel-driven Python `repr` of a JSON value, used for `str()` of non-string
values interpolated into f-strings (scalars exactly; containers
structurally). -/
def pyReprF : Nat → JsonVal → List Char
  | 0, _ => []
  | _ + 1, .null => "None".toList
  | _ + 1, .bool true => "True".toList
  | _ + 1, .bool false => "False".toList
  | _ + 1, .int n => (toString n).toList
  | _ + 1, .str s => '\'' :: s ++ ['\'']
  | fuel + 1, .arr xs => '[' :: joinSep ", ".toList (xs.map (pyReprF fuel)) ++ [']']
  | fuel + 1, .obj kvs =>
    '\x7b' :: joinSep ", ".toList
      (kvs.map (fun kv => '\'' :: kv.1 ++ '\'' :: ':' :: ' ' :: pyReprF fuel kv.2)) ++ ['\x7d']

/-- Python `str()` of a JSON value, as interpolated by an f-string: strings
verbatim, other values via `repr`-like rendering. -/
def pyToStr : JsonVal → List Char
  | .str s => s
  | v => pyReprF 1000 v

/-- The file system seen by the script: a map from path to (textual) file
content, `none` meaning the file does not exist / cannot be read. -/
def Fs : Type := List Char → Option (List Char)

/-- A file write (`open(p, "w")` followed by a full write). -/
def fsWrite (fs : Fs) (p v : List Char) : Fs :=
  fun q => if q = p then some v else fs q

/-! ## The placeholder regular expression

The source compiles the pattern
`<div\s+id="dak-api-content-placeholder"[^>]*>.*?</div>` with `re.DOTALL`.
Because each variable-width piece is followed by a literal it cannot also
match (`\s` cannot match `i`, `[^>]` cannot match `>`), backtracking never
changes the outcome and a match attempt at a fixed start position is the
deterministic computation implemented by `matchAt`. -/

/-- The literal `<div`. -/
def litDivOpen : List Char := "<div".toList

/-- The literal `id="dak-api-content-placeholder"`. -/
def litIdAttr : List Char := "id=\"dak-api-content-placeholder\"".toList

/-- The literal `</div>`. -/
def litDivClose : List Char := "</div>".toList

/-- The legacy comment marker the source falls back to. -/
def legacyMarker : List Char := "<!-- DAK_API_CONTENT -->".toList

/-- Python `\s` on the characters that can appear here (ASCII whitespace and
the other control characters Python's `str` patterns treat as space). -/
def isSpaceC (c : Char) : Bool :=
  c = ' ' || c = '\t' || c = '\n' || c = '\r' || c = '\x0b' || c = '\x0c' ||
  c = '\x1c' || c = '\x1d' || c = '\x1e' || c = '\x1f' || c = '\x85' || c = '\xa0'

/-- Attempt to match the placeholder pattern starting exactly at the head of
`s`.  On success returns `(span, rest)` with `s = span ++ rest`, where `span`
is the matched text: `<div`, then one or more whitespace characters, the
literal `id` attribute, any run of non-`>` characters, `>`, then (lazily) up
to and including the first `</div>`. -/
def matchAt (s : List Char) : Option (List Char × List Char) :=
  match dropPre litDivOpen s with
  | none => none
  | some s1 =>
    if s1.takeWhile isSpaceC = [] then none
    else
      match dropPre litIdAttr (s1.dropWhile isSpaceC) with
      | none => none
      | some s3 =>
        match s3.dropWhile (fun c => c ≠ '>') with
        | [] => none
        | c :: s5 =>
          match firstOcc litDivClose s5 with
          | none => none
          | some (pre, post) =>
            some (litDivOpen ++ s1.takeWhile isSpaceC ++ litIdAttr ++
                  s3.takeWhile (fun c => c ≠ '>') ++ c :: (pre ++ litDivClose), post)

/-- `re.search` of the placeholder pattern: does the pattern match starting
at some position of `s`? -/
def reSearchPlaceholder : List Char → Bool
  | [] => (matchAt []).isSome
  | c :: t => (matchAt (c :: t)).isSome || reSearchPlaceholder t

/-- Fuel-driven core of `re.sub` for the placeholder pattern: replaces every
non-overlapping leftmost match by `frag`, scanning left to right. -/
def reSubAllF (frag : List Char) : Nat → List Char → List Char
  | 0, s => s
  | _ + 1, [] => []
  | fuel + 1, c :: t =>
    match matchAt (c :: t) with
    | some (_, rest) => frag ++ reSubAllF frag fuel rest
    | none => c :: reSubAllF frag fuel t

/-- `re.sub(pattern, frag, s, flags=re.DOTALL)` for the placeholder pattern. -/
def reSubAll (frag s : List Char) : List Char :=
  reSubAllF frag s.length s

/-! ## `HTMLProcessor.inject_content_at_comment_marker` -/

/-- The substituted document, when a marker was found: the placeholder-regex
substitution when the pattern matches, otherwise the legacy-marker string
replacement. -/
def injectedHtml (html content : List Char) : List Char :=
  if reSearchPlaceholder html then reSubAll content html
  else replaceAll legacyMarker content html

/-- `HTMLProcessor.inject_content_at_comment_marker`.  The target file is
`some html` when it exists with that content, `none` when it does not.
Returns the boolean result of the call together with the file's content after
the call.  Mirrors the source: missing file → `False` with no write; no
placeholder match and no legacy marker → `False` with no write; otherwise the
substituted document is written back unconditionally and the call returns
whether the length grew by strictly more than 100. -/
def inject_content_at_comment_marker (file : Option (List Char)) (content : List Char) :
    Bool × Option (List Char) :=
  match file with
  | none => (false, none)
  | some html =>
    if reSearchPlaceholder html then
      let newHtml := reSubAll content html
      (decide ((newHtml.length : Int) - (html.length : Int) > 100), some newHtml)
    else if containsSub legacyMarker html then
      let newHtml := replaceAll legacyMarker content html
      (decide ((newHtml.length : Int) - (html.length : Int) > 100), some newHtml)
    else
      (false, some html)

/-! ## `SchemaDetector.find_schema_files` -/

/-- The role a schema filename is classified into. -/
inductive SchemaRole where
  | valueset : SchemaRole
  | logical_model : SchemaRole
  | other : SchemaRole
deriving DecidableEq

/-- The `.schema.json` suffix. -/
def schemaSuffix : List Char := ".schema.json".toList

/-- `file.endswith(".schema.json")`. -/
def isSchemaFile (f : List Char) : Bool :=
  schemaSuffix.isSuffixOf f

/-- The `ValueSet-` filename marker. -/
def vsItemMark : List Char := "ValueSet-".toList

/-- The `CodeSystem-` filename marker. -/
def csItemMark : List Char := "CodeSystem-".toList

/-- The `ValueSets.schema.json` enumeration-schema filename. -/
def vsEnumName : List Char := "ValueSets.schema.json".toList

/-- The `LogicalModels.schema.json` enumeration-schema filename. -/
def lmEnumName : List Char := "LogicalModels.schema.json".toList

/-- The if/elif chain of `find_schema_files`, applied to one suffix-matching
filename. -/
def classifySchema (f : List Char) : SchemaRole :=
  if vsItemMark.isPrefixOf f then .valueset
  else if f = vsEnumName then .valueset
  else if f = lmEnumName then .logical_model
  else if !vsItemMark.isPrefixOf f && !csItemMark.isPrefixOf f then .logical_model
  else .other

/-- The three per-role path lists `find_schema_files` returns, in
directory-listing order. -/
structure SchemaBuckets where
  valueset : List (List Char)
  logical_model : List (List Char)
  other : List (List Char)

/-- The scan loop of `find_schema_files` over the directory listing: files
not ending in `.schema.json` are skipped, every other file is appended (in
listing order) to the bucket its classification selects, as the joined path
`os.path.join(schema_dir, file)`. -/
def scanSchemaDir (dir : List Char) : List (List Char) → SchemaBuckets
  | [] => ⟨[], [], []⟩
  | f :: rest =>
    let b := scanSchemaDir dir rest
    if isSchemaFile f then
      match classifySchema f with
      | .valueset => ⟨joinPath dir f :: b.valueset, b.logical_model, b.other⟩
      | .logical_model => ⟨b.valueset, joinPath dir f :: b.logical_model, b.other⟩
      | .other => ⟨b.valueset, b.logical_model, joinPath dir f :: b.other⟩
    else b

/-- `SchemaDetector.find_schema_files`: `dirExists` is whether
`os.path.exists(schema_dir)` holds and `listing` is `os.listdir(schema_dir)`
in discovery order; a missing directory yields all-empty buckets. -/
def find_schema_files (dirExists : Bool) (dir : List Char) (listing : List (List Char)) :
    SchemaBuckets :=
  if dirExists then scanSchemaDir dir listing else ⟨[], [], []⟩

/-! ## `OpenAPIWrapper.create_wrapper_for_schema` -/

/-- The `summary` string of the single GET operation, switching on the
`schema_type` argument exactly as the source does (`"valueset"` versus
everything else). -/
def wrapperSummary (schema_type schema_name : List Char) : List Char :=
  if schema_type = "valueset".toList then
    "JSON Schema definition for the enumeration ".toList ++ schema_name
  else
    "JSON Schema definition for the Logical Model ".toList ++ schema_name

/-- The `description` string of the single GET operation. -/
def wrapperDescription (schema_type schema_name : List Char) : List Char :=
  if schema_type = "valueset".toList then
    "This endpoint serves the JSON Schema definition for the enumeration ".toList ++
      schema_name ++ ['.']
  else
    "This endpoint serves the JSON Schema definition for the Logical Model ".toList ++
      schema_name ++ ['.']

/-- The `openapi_spec` document built by `create_wrapper_for_schema` from the
parsed schema object `kvs`, the schema's base filename and the
`schema_type` argument. -/
def create_wrapper_spec (kvs : List (List Char × JsonVal)) (schema_filename schema_type : List Char) :
    JsonVal :=
  let schema_name := replaceAll schemaSuffix [] schema_filename
  .obj [
    ("openapi".toList, .str "3.0.3".toList),
    ("info".toList, .obj [
      ("title".toList,
        .str ((match lookupKey "title".toList kvs with
               | some v => pyToStr v
               | none => schema_name) ++ " API".toList)),
      ("description".toList,
        (lookupKey "description".toList kvs).getD
          (.str ("API for ".toList ++ schema_name ++ " schema".toList))),
      ("version".toList, .str "1.0.0".toList)]),
    ("paths".toList, .obj [
      ('/' :: schema_filename, .obj [
        ("get".toList, .obj [
          ("summary".toList, .str (wrapperSummary schema_type schema_name)),
          ("description".toList, .str (wrapperDescription schema_type schema_name)),
          ("responses".toList, .obj [
            ("200".toList, .obj [
              ("description".toList, .str ("The JSON Schema for ".toList ++ schema_name)),
              ("content".toList, .obj [
                ("application/schema+json".toList, .obj [
                  ("schema".toList, .obj [
                    ("$ref".toList, .str ("./".toList ++ schema_filename))])])])])])])])]),
    ("components".toList, .obj [
      ("schemas".toList, .obj [(schema_name, .obj kvs)])])]

/-- `OpenAPIWrapper.create_wrapper_for_schema`: reads and parses the schema
file, builds the wrapper document and writes it as
`<schema_name>.openapi.json` in `output_dir`, overwriting unconditionally.
Any failure inside the `try` (unreadable file, unparsable JSON, or a
non-object document on which `.get` raises) is caught and yields `none` with
no write.  `parse` stands for `json.load` on the file's text.  Returns the
file system after the call and the returned wrapper path. -/
def create_wrapper_for_schema (parse : List Char → Option JsonVal) (fs : Fs)
    (schema_path schema_type output_dir : List Char) : Fs × Option (List Char) :=
  match fs schema_path with
  | none => (fs, none)
  | some raw =>
    match parse raw with
    | none => (fs, none)
    | some (.obj kvs) =>
      let schema_filename := basenameL schema_path
      let schema_name := replaceAll schemaSuffix [] schema_filename
      let wrapper_path := joinPath output_dir (schema_name ++ ".openapi.json".toList)
      (fsWrite fs wrapper_path
        (serializeJson (create_wrapper_spec kvs schema_filename schema_type)),
       some wrapper_path)
    | some _ => (fs, none)

/-! ## `DAKApiHubGenerator.create_enumeration_schema` -/

/-- Reading one schema file into its catalog entry, inside the per-item
`try` of `create_enumeration_schema`: `none` when the read, the parse, a
`.get` on a non-object document, or `len` of a non-sized value raises (the
item is then skipped with a logged warning). -/
def readEnumEntry (parse : List Char → Option JsonVal) (fs : Fs) (schema_type schema_path : List Char) :
    Option JsonVal :=
  match fs schema_path with
  | none => none
  | some raw =>
    match parse raw with
    | none => none
    | some (.obj kvs) =>
      let fn := basenameL schema_path
      let base : List (List Char × JsonVal) :=
        [("filename".toList, .str fn),
         ("id".toList, (lookupKey "$id".toList kvs).getD (.str [])),
         ("title".toList, (lookupKey "title".toList kvs).getD (.str fn)),
         ("description".toList, (lookupKey "description".toList kvs).getD (.str [])),
         ("url".toList, .str ("./".toList ++ fn))]
      if schema_type = "valueset".toList then
        let b1 := base ++
          (match lookupKey "fhir:valueSet".toList kvs with
           | some v => [("valueSetUrl".toList, v)]
           | none => [])
        match lookupKey "enum".toList kvs with
        | some v =>
          match pyLen v with
          | some n => some (.obj (b1 ++ [("codeCount".toList, .int n)]))
          | none => none
        | none => some (.obj b1)
      else
        let b1 := base ++
          (match lookupKey "fhir:logicalModel".toList kvs with
           | some v => [("logicalModelUrl".toList, v)]
           | none => [])
        match lookupKey "properties".toList kvs with
        | some v =>
          match pyLen v with
          | some n => some (.obj (b1 ++ [("propertyCount".toList, .int n)]))
          | none => none
        | none => some (.obj b1)
    | some _ => none

/-- The fixed per-kind enumeration filename. -/
def enumFilename (schema_type : List Char) : List Char :=
  if schema_type = "valueset".toList then vsEnumName else lmEnumName

/-- The fixed per-kind enumeration title. -/
def enumTitle (schema_type : List Char) : List Char :=
  if schema_type = "valueset".toList then "ValueSet Enumeration Schema".toList
  else "Logical Model Enumeration Schema".toList

/-- The fixed per-kind enumeration description. -/
def enumDescText (schema_type : List Char) : List Char :=
  if schema_type = "valueset".toList then
    "JSON Schema defining the structure of the ValueSet enumeration endpoint response".toList
  else
    "JSON Schema defining the structure of the Logical Model enumeration endpoint response".toList

/-- The per-item property map of the enumeration schema, with the two
kind-specific properties the source appends after building the base
document. -/
def enumItemProps (schema_type : List Char) : List (List Char × JsonVal) :=
  [("filename".toList, .obj [("type".toList, .str "string".toList)]),
   ("id".toList, .obj [("type".toList, .str "string".toList)]),
   ("title".toList, .obj [("type".toList, .str "string".toList)]),
   ("description".toList, .obj [("type".toList, .str "string".toList)]),
   ("url".toList, .obj [("type".toList, .str "string".toList)])] ++
  (if schema_type = "valueset".toList then
    [("valueSetUrl".toList, .obj [("type".toList, .str "string".toList)]),
     ("codeCount".toList, .obj [("type".toList, .str "integer".toList)])]
   else
    [("logicalModelUrl".toList, .obj [("type".toList, .str "string".toList)]),
     ("propertyCount".toList, .obj [("type".toList, .str "integer".toList)])])

/-- The enumeration (catalog) schema document built from the successfully
read entries, including the `example` carrying the live entry list and its
count. -/
def enumerationSchemaVal (schema_type : List Char) (entries : List JsonVal) : JsonVal :=
  .obj [
    ("$schema".toList, .str "https://json-schema.org/draft/2020-12/schema".toList),
    ("$id".toList, .str ("#/".toList ++ enumFilename schema_type)),
    ("title".toList, .str (enumTitle schema_type)),
    ("description".toList, .str (enumDescText schema_type)),
    ("type".toList, .str "object".toList),
    ("properties".toList, .obj [
      ("type".toList, .obj [("type".toList, .str "string".toList),
                            ("const".toList, .str schema_type)]),
      ("count".toList, .obj [("type".toList, .str "integer".toList)]),
      ("schemas".toList, .obj [
        ("type".toList, .str "array".toList),
        ("items".toList, .obj [
          ("type".toList, .str "object".toList),
          ("properties".toList, .obj (enumItemProps schema_type)),
          ("required".toList, .arr [.str "filename".toList, .str "title".toList,
                                    .str "url".toList])])])]),
    ("required".toList, .arr [.str "type".toList, .str "count".toList,
                              .str "schemas".toList]),
    ("example".toList, .obj [
      ("type".toList, .str schema_type),
      ("count".toList, .int entries.length),
      ("schemas".toList, .arr entries)])]

/-- `DAKApiHubGenerator.create_enumeration_schema`: reads each listed schema
file (skipping, with a logged warning, any item whose read fails), builds the
enumeration schema over the surviving entries and writes it under the fixed
per-kind filename in `output_dir`, returning the written path. -/
def create_enumeration_schema (parse : List Char → Option JsonVal) (fs : Fs)
    (schema_type : List Char) (schema_files : List (List Char)) (output_dir : List Char) :
    Fs × Option (List Char) :=
  let entries := schema_files.filterMap (readEnumEntry parse fs schema_type)
  let enum_path := joinPath output_dir (enumFilename schema_type)
  (fsWrite fs enum_path (serializeJson (enumerationSchemaVal schema_type entries)),
   some enum_path)

/-! ## `QAReporter` -/

/-- The mutable state of a `QAReporter`: its phase and creation timestamp,
the four append-only detail logs plus the expected/missing file lists, the
optionally loaded external IG-publisher QA document, and the stored
preprocessing component reports in arrival order.  Timestamps are data
threaded in from outside (the model takes `datetime.now()` values as
arguments where the source calls it). -/
structure QAState where
  phase : List Char
  tstamp : List Char
  successes : List JsonVal
  warnings : List JsonVal
  errors : List JsonVal
  files_processed : List JsonVal
  files_expected : List JsonVal
  files_missing : List JsonVal
  ig_publisher_qa : Option JsonVal
  stored_preprocessing : List JsonVal

/-- `QAReporter.merge_preprocessing_report`, restricted to its lasting
effect on later merging: the report is appended to the stored list.  (The
source additionally folds the report's success/warning/error entries into
this run's own logs with a `[component]` prefix; no verified property below
depends on those copies, and a malformed report makes that folding raise in
the caller after the append has already happened.) -/
def merge_preprocessing_report (st : QAState) (rep : JsonVal) : QAState :=
  { st with stored_preprocessing := st.stored_preprocessing ++ [rep] }

/-- `self.report` as `finalize_report` leaves it: the five fixed top-level
keys in creation order, with the summary counts computed from the logs and
`cts` standing for the completion timestamp. -/
def reportVal (st : QAState) (status cts : List Char) : JsonVal :=
  .obj [
    ("phase".toList, .str st.phase),
    ("timestamp".toList, .str st.tstamp),
    ("status".toList, .str status),
    ("summary".toList, .obj [
      ("total_successes".toList, .int st.successes.length),
      ("total_warnings".toList, .int st.warnings.length),
      ("total_errors".toList, .int st.errors.length),
      ("files_processed_count".toList, .int st.files_processed.length),
      ("files_expected_count".toList, .int st.files_expected.length),
      ("files_missing_count".toList, .int st.files_missing.length),
      ("completion_timestamp".toList, .str cts)]),
    ("details".toList, .obj [
      ("successes".toList, .arr st.successes),
      ("warnings".toList, .arr st.warnings),
      ("errors".toList, .arr st.errors),
      ("files_processed".toList, .arr st.files_processed),
      ("files_expected".toList, .arr st.files_expected),
      ("files_missing".toList, .arr st.files_missing)])]

/-- A JSON value used as a Python dict key, as `json.dump` later renders it:
strings verbatim; ints, bools and `None` by their JSON spellings; lists and
dicts are unhashable and raise. -/
def keyOfJson : JsonVal → Option (List Char)
  | .str s => some s
  | .int n => some (toString n).toList
  | .bool true => some "true".toList
  | .bool false => some "false".toList
  | .null => some "null".toList
  | _ => none

/-- `rep.get("component", rep.get("phase", f"component_{i}"))` as a dict
key: `none` when the report is not an object (`.get` raises) or the declared
name is unhashable. -/
def declaredName (rep : JsonVal) (i : Nat) : Option (List Char) :=
  match rep with
  | .obj kvs =>
    match lookupKey "component".toList kvs with
    | some v => keyOfJson v
    | none =>
      match lookupKey "phase".toList kvs with
      | some v => keyOfJson v
      | none => some ("component_".toList ++ (toString i).toList)
  | _ => none

/-- The `preprocessing_reports` dict built by `merge_with_ig_publisher_qa`:
one `preprocessing_reports[name] = rep` assignment per stored report in
arrival order (so a repeated name overwrites).  `none` when naming one of
the reports raises, which aborts the whole merge. -/
def buildPreprocMap (i : Nat) (reports : List JsonVal) (acc : List (List Char × JsonVal)) :
    Option (List (List Char × JsonVal)) :=
  match reports with
  | [] => some acc
  | r :: rest =>
    match declaredName r i with
    | some name => buildPreprocMap (i + 1) rest (setKey acc name r)
    | none => none

/-- The key the merge adds to the external report. -/
def dakKey : List Char := "dak_api_processing".toList

/-- The namespaced sub-tree stored under `dak_api_processing`: the stored
component reports, this run's finalized report, and the condensed summary
(whose counts restate the finalized report's own summary counts). -/
def dakSubtreeVal (st : QAState) (status cts : List Char)
    (preproc : List (List Char × JsonVal)) : JsonVal :=
  .obj [
    ("preprocessing_reports".toList, .obj preproc),
    ("postprocessing".toList, reportVal st status cts),
    ("summary".toList, .obj [
      ("total_dak_api_successes".toList, .int st.successes.length),
      ("total_dak_api_warnings".toList, .int st.warnings.length),
      ("total_dak_api_errors".toList, .int st.errors.length),
      ("dak_api_completion_timestamp".toList, .str cts)])]

/-- `QAReporter.merge_with_ig_publisher_qa`: copies the external report and
assigns the namespaced sub-tree under `dak_api_processing`.  Any exception
inside the `try` (the external document is not an object, or naming a stored
report raises) is caught and the method returns this run's own report
instead. -/
def merge_with_ig_publisher_qa (st : QAState) (status cts : List Char) : JsonVal :=
  match st.ig_publisher_qa with
  | some (.obj kvs) =>
    match buildPreprocMap 0 st.stored_preprocessing [] with
    | some preproc => .obj (setKey kvs dakKey (dakSubtreeVal st status cts preproc))
    | none => reportVal st status cts
  | _ => reportVal st status cts

/-- `QAReporter.finalize_report`: recomputes the summary and, when the loaded
external QA document is truthy (`if self.ig_publisher_qa:`), returns the
merged object; otherwise returns this run's own report. -/
def finalize_report (st : QAState) (status cts : List Char) : JsonVal :=
  match st.ig_publisher_qa with
  | some ig =>
    if truthyJson ig then merge_with_ig_publisher_qa st status cts
    else reportVal st status cts
  | none => reportVal st status cts

/-! ## Derived and specification-side definitions used by the statements -/

/-- A canonical placeholder opening tag,
`<div id="dak-api-content-placeholder">` (one space, no further
attributes), used to state the corrected injection property. -/
def phOpenTag : List Char := litDivOpen ++ ' ' :: (litIdAttr ++ ['>'])

/-- Modelled from the corrected specification wording for the component-report
map: the LAST report in `reports` (indexed from `i`) whose declared
component/phase name is `name` — later reports overwrite earlier ones under a
repeated key. -/
def lastWithName (i : Nat) (name : List Char) : List JsonVal → Option JsonVal
  | [] => none
  | r :: rest =>
    match lastWithName (i + 1) name rest with
    | some v => some v
    | none => if declaredName r i = some name then some r else none

/-- Concrete test input: a parse function mapping every file text to the
empty JSON object (a trivially well-formed schema). -/
def parseEmptyObj : List Char → Option JsonVal :=
  fun _ => some (.obj [])

/-- Concrete test input: a directory of five schema files of which exactly
one (`s/bad.schema.json`) cannot be read. -/
def fsFiveOneBad : Fs :=
  fun p => if p = "s/bad.schema.json".toList then none else some "\x7b\x7d".toList

/-- The five schema paths of the `fsFiveOneBad` scenario, in listing order. -/
def fivePaths : List (List Char) :=
  ["s/a.schema.json".toList, "s/b.schema.json".toList, "s/bad.schema.json".toList,
   "s/c.schema.json".toList, "s/d.schema.json".toList]

/-- Concrete test input: a reporter state that recorded one warning, loaded
an EMPTY external report object, and stored no component reports. -/
def stEmptyExternal : QAState :=
  ⟨"postprocessing".toList, "T0".toList, [],
   [.obj [("message".toList, .str "w".toList), ("timestamp".toList, .str "T1".toList)]],
   [], [], [], [], some (.obj []), []⟩

/-- Concrete test input: a reporter state that recorded one warning, loaded
the external report `{"ok": true}`, and stored no component reports. -/
def stOneWarning : QAState :=
  ⟨"postprocessing".toList, "T0".toList, [],
   [.obj [("message".toList, .str "w".toList), ("timestamp".toList, .str "T1".toList)]],
   [], [], [], [], some (.obj [("ok".toList, .bool true)]), []⟩

/-- Concrete test input: a first component report declaring name `x`. -/
def repA : JsonVal :=
  .obj [("component".toList, .str "x".toList), ("n".toList, .int 1)]

/-- Concrete test input: a second component report also declaring name `x`,
distinguishable from `repA` by its `n` field. -/
def repB : JsonVal :=
  .obj [("component".toList, .str "x".toList), ("n".toList, .int 2)]

/-- Concrete test input: a reporter state that loaded `{"ok": true}` and
stored the two same-named component reports `repA` then `repB`. -/
def stTwoReports : QAState :=
  ⟨"postprocessing".toList, "T0".toList, [], [], [], [], [], [],
   some (.obj [("ok".toList, .bool true)]), [repA, repB]⟩

/-! ## Helper lemmas -/

theorem dropPre_eq (p : List Char) : ∀ s r, dropPre p s = some r → s = p ++ r := by
  induction p with
  | nil =>
    intro s r h
    simp [dropPre] at h
    simp [h]
  | cons a ps ih =>
    intro s r h
    cases s with
    | nil => simp [dropPre] at h
    | cons c cs =>
      by_cases hac : a = c
      · rw [dropPre, if_pos hac] at h
        rw [List.cons_append, ← hac, ih cs r h]
      · rw [dropPre, if_neg hac] at h
        exact absurd h (by simp)

theorem dropPre_self_append (p s : List Char) : dropPre p (p ++ s) = some s := by
  induction p with
  | nil => rfl
  | cons a ps ih => simp [dropPre, ih]

theorem firstOcc_eq (n : List Char) :
    ∀ h a b, firstOcc n h = some (a, b) → h = a ++ n ++ b := by
  intro h
  induction h with
  | nil =>
    intro a b hh
    by_cases hn : n = []
    · simp only [firstOcc, if_pos hn, Option.some.injEq, Prod.mk.injEq] at hh
      obtain ⟨ha, hb⟩ := hh
      rw [← ha, ← hb, hn]
      rfl
    · simp [firstOcc, hn] at hh
  | cons c t ih =>
    intro a b hh
    rw [firstOcc] at hh
    by_cases hp : n.isPrefixOf (c :: t) = true
    · rw [if_pos hp] at hh
      obtain ⟨r, hr⟩ := List.isPrefixOf_iff_prefix.mp hp
      have hdrop : (c :: t).drop n.length = r := by
        rw [← hr]; exact List.drop_left n r
      rw [hdrop] at hh
      simp only [Option.some.injEq, Prod.mk.injEq] at hh
      obtain ⟨ha, hb⟩ := hh
      rw [← ha, ← hb, ← hr]
      simp
    · rw [if_neg hp] at hh
      cases hf : firstOcc n t with
      | none => rw [hf] at hh; exact absurd hh (by simp)
      | some pr =>
        obtain ⟨a', b'⟩ := pr
        rw [hf] at hh
        have hh2 : (c :: a', b') = (a, b) := Option.some.inj hh
        rw [Prod.mk.injEq] at hh2
        obtain ⟨ha, hb⟩ := hh2
        rw [← ha, ← hb]
        simp [ih a' b' hf]

theorem firstOcc_boundary (n : List Char) (hn : n ≠ []) :
    ∀ (inner post : List Char),
      (∀ k, k < inner.length → n.isPrefixOf ((inner ++ n ++ post).drop k) = false) →
      firstOcc n (inner ++ n ++ post) = some (inner, post) := by
  intro inner
  induction inner with
  | nil =>
    intro post _
    cases n with
    | nil => exact absurd rfl hn
    | cons x xs =>
      show firstOcc (x :: xs) (x :: (xs ++ post)) = some ([], post)
      have hp : (x :: xs).isPrefixOf (x :: (xs ++ post)) = true :=
        List.isPrefixOf_iff_prefix.mpr ⟨post, by simp⟩
      rw [firstOcc, if_pos hp]
      have hd : (x :: (xs ++ post)).drop (x :: xs).length = post := by
        rw [show x :: (xs ++ post) = (x :: xs) ++ post from rfl]
        exact List.drop_left _ _
      rw [hd]
  | cons c t ih =>
    intro post hno
    have hrest : firstOcc n (t ++ n ++ post) = some (t, post) := by
      refine ih post (fun k hk => ?_)
      have := hno (k + 1) (by simpa using Nat.succ_lt_succ hk)
      simpa using this
    have h0 := hno 0 (by simp)
    rw [List.drop_zero] at h0
    show firstOcc n (c :: (t ++ n ++ post)) = some (c :: t, post)
    rw [firstOcc]
    split_ifs with hp
    · simp only [List.cons_append, List.append_assoc] at h0
      simp only [List.append_assoc] at hp
      rw [hp] at h0
      exact absurd h0 (by decide)
    · rw [hrest]
      rfl

theorem matchAt_eq_append (s span rest : List Char) (h : matchAt s = some (span, rest)) :
    s = span ++ rest ∧ span ≠ [] := by
  rw [matchAt] at h
  split at h
  · exact absurd h (by simp)
  rename_i s1 hd
  split at h
  · exact absurd h (by simp)
  rename_i hws
  split at h
  · exact absurd h (by simp)
  rename_i s3 hid
  split at h
  · exact absurd h (by simp)
  rename_i c s5 hdw
  split at h
  · exact absurd h (by simp)
  rename_i pr pre post hfo
  have h2 := Option.some.inj h
  rw [Prod.mk.injEq] at h2
  obtain ⟨hspan, hrest⟩ := h2
  have e1 : s = litDivOpen ++ s1 := dropPre_eq _ _ _ hd
  have e2 : s1 = s1.takeWhile isSpaceC ++ s1.dropWhile isSpaceC :=
    (List.takeWhile_append_dropWhile _ _).symm
  have e4 : s3 = s3.takeWhile (fun x => x ≠ '>') ++ (c :: s5) := by
    rw [← hdw]
    exact (List.takeWhile_append_dropWhile _ _).symm
  have e5 : s5 = pre ++ litDivClose ++ post := firstOcc_eq _ _ _ _ hfo
  constructor
  · rw [← hspan, ← hrest, e1]
    conv_lhs => rw [e2]
    rw [dropPre_eq _ _ _ hid]
    conv_lhs => rw [e4]
    conv_lhs => rw [e5]
    simp [List.append_assoc]
  · rw [← hspan, show litDivOpen = '<' :: "div".toList from rfl]
    simp

theorem matchAt_rest_lt (s span rest : List Char) (h : matchAt s = some (span, rest)) :
    rest.length < s.length := by
  obtain ⟨he, hne⟩ := matchAt_eq_append s span rest h
  rw [he, List.length_append]
  have hp : 0 < span.length := List.length_pos.mpr hne
  omega

theorem reSubAllF_fuel_eq (frag : List Char) :
    ∀ (n : Nat) (s : List Char), s.length ≤ n →
      ∀ f1 f2, s.length ≤ f1 → s.length ≤ f2 →
        reSubAllF frag f1 s = reSubAllF frag f2 s := by
  intro n
  induction n with
  | zero =>
    intro s hs f1 f2 _ _
    have hnil : s = [] := List.length_eq_zero.mp (Nat.le_zero.mp hs)
    subst hnil
    cases f1 <;> cases f2 <;> rfl
  | succ n ih =>
    intro s hs f1 f2 h1 h2
    cases s with
    | nil => cases f1 <;> cases f2 <;> rfl
    | cons c t =>
      cases f1 with
      | zero => simp at h1
      | succ g1 =>
        cases f2 with
        | zero => simp at h2
        | succ g2 =>
          simp only [List.length_cons] at hs h1 h2
          cases hm : matchAt (c :: t) with
          | none =>
            have e1 : reSubAllF frag (g1 + 1) (c :: t) = c :: reSubAllF frag g1 t := by
              rw [reSubAllF, hm]
            have e2 : reSubAllF frag (g2 + 1) (c :: t) = c :: reSubAllF frag g2 t := by
              rw [reSubAllF, hm]
            rw [e1, e2, ih t (by omega) g1 g2 (by omega) (by omega)]
          | some pr =>
            obtain ⟨span, rest⟩ := pr
            have hr : rest.length < (c :: t).length := matchAt_rest_lt _ _ _ hm
            simp only [List.length_cons] at hr
            have e1 : reSubAllF frag (g1 + 1) (c :: t) = frag ++ reSubAllF frag g1 rest := by
              rw [reSubAllF, hm]
            have e2 : reSubAllF frag (g2 + 1) (c :: t) = frag ++ reSubAllF frag g2 rest := by
              rw [reSubAllF, hm]
            rw [e1, e2, ih rest (by omega) g1 g2 (by omega) (by omega)]

theorem reSubAllF_adequate (frag s : List Char) (f : Nat) (hf : s.length ≤ f) :
    reSubAllF frag f s = reSubAll frag s :=
  reSubAllF_fuel_eq frag s.length s le_rfl f s.length hf le_rfl

theorem reSubAll_match (frag s span rest : List Char) (h : matchAt s = some (span, rest)) :
    reSubAll frag s = frag ++ reSubAll frag rest := by
  have hr : rest.length < s.length := matchAt_rest_lt s span rest h
  cases s with
  | nil =>
    rw [show matchAt [] = none from rfl] at h
    exact absurd h (by simp)
  | cons c t =>
    have step : reSubAll frag (c :: t) = frag ++ reSubAllF frag t.length rest := by
      show reSubAllF frag (c :: t).length (c :: t) = _
      rw [show (c :: t).length = t.length + 1 from rfl, reSubAllF, h]
    simp only [List.length_cons] at hr
    rw [step, reSubAllF_adequate frag rest t.length (by omega)]

theorem reSubAll_nomatch (frag : List Char) (c : Char) (t : List Char)
    (h : matchAt (c :: t) = none) :
    reSubAll frag (c :: t) = c :: reSubAll frag t := by
  have step : reSubAll frag (c :: t) = c :: reSubAllF frag t.length t := by
    show reSubAllF frag (c :: t).length (c :: t) = _
    rw [show (c :: t).length = t.length + 1 from rfl, reSubAllF, h]
  rw [step, reSubAllF_adequate frag t t.length le_rfl]

theorem reSubAll_skip (frag : List Char) :
    ∀ (pre s : List Char),
      (∀ k, k < pre.length → matchAt ((pre ++ s).drop k) = none) →
      reSubAll frag (pre ++ s) = pre ++ reSubAll frag s := by
  intro pre
  induction pre with
  | nil => intro s _; rfl
  | cons c t ih =>
    intro s hno
    have h0 := hno 0 (by simp)
    rw [List.drop_zero] at h0
    have hstep : reSubAll frag (c :: (t ++ s)) = c :: reSubAll frag (t ++ s) :=
      reSubAll_nomatch frag c (t ++ s) h0
    have hrec : reSubAll frag (t ++ s) = t ++ reSubAll frag s := by
      refine ih s (fun k hk => ?_)
      have := hno (k + 1) (by simpa using Nat.succ_lt_succ hk)
      simpa using this
    show reSubAll frag (c :: (t ++ s)) = c :: (t ++ reSubAll frag s)
    rw [hstep, hrec]

theorem reSearch_append_of_matchAt (x s : List Char) (h : (matchAt s).isSome = true) :
    reSearchPlaceholder (x ++ s) = true := by
  induction x with
  | nil =>
    cases s with
    | nil => simpa [reSearchPlaceholder] using h
    | cons c t =>
      show reSearchPlaceholder (c :: t) = true
      rw [reSearchPlaceholder, h, Bool.true_or]
  | cons c t ih =>
    show reSearchPlaceholder (c :: (t ++ s)) = true
    rw [reSearchPlaceholder, ih, Bool.or_true]

theorem matchAt_of_parts (s s1 s3 : List Char) (c : Char) (s5 pre post : List Char)
    (hd : dropPre litDivOpen s = some s1)
    (hws : s1.takeWhile isSpaceC ≠ [])
    (hid : dropPre litIdAttr (s1.dropWhile isSpaceC) = some s3)
    (hdw : s3.dropWhile (fun x => x ≠ '>') = c :: s5)
    (hfo : firstOcc litDivClose s5 = some (pre, post)) :
    matchAt s = some (litDivOpen ++ s1.takeWhile isSpaceC ++ litIdAttr ++
                      s3.takeWhile (fun x => x ≠ '>') ++ c :: (pre ++ litDivClose), post) := by
  rw [matchAt, hd]
  simp only [if_neg hws, hid, hdw, hfo]

theorem matchAt_openTag (inner post : List Char)
    (hin : ∀ k, k < inner.length →
      litDivClose.isPrefixOf ((inner ++ litDivClose ++ post).drop k) = false) :
    matchAt (phOpenTag ++ inner ++ litDivClose ++ post) =
      some (phOpenTag ++ inner ++ litDivClose, post) :=
  matchAt_of_parts (phOpenTag ++ inner ++ litDivClose ++ post)
    (' ' :: (litIdAttr ++ ('>' :: (inner ++ litDivClose ++ post))))
    ('>' :: (inner ++ litDivClose ++ post)) '>' (inner ++ litDivClose ++ post) inner post
    rfl
    (by
      rw [show (' ' :: (litIdAttr ++ ('>' :: (inner ++ litDivClose ++ post)))).takeWhile isSpaceC
            = [' '] from rfl]
      simp)
    rfl rfl
    (firstOcc_boundary litDivClose (by decide) inner post hin)

/-! ## Claims about `HTMLProcessor.inject_content_at_comment_marker` -/

/-- C2: for every existing target HTML file whose content neither matches the
tagged placeholder-div pattern (`id="dak-api-content-placeholder"`) nor
contains the legacy `<!-- DAK_API_CONTENT -->` comment marker, the call
returns `false` and the file content after the call is identical to its
content before the call — no write is performed in this branch. -/
theorem inject_no_marker_fails_and_leaves_file (html content : List Char)
    (h1 : reSearchPlaceholder html = false)
    (h2 : containsSub legacyMarker html = false) :
    inject_content_at_comment_marker (some html) content = (false, some html) := by
  rw [inject_content_at_comment_marker]
  rw [if_neg (by rw [h1]; simp), if_neg (by rw [h2]; simp)]

/-- Witness for `inject_no_marker_fails_and_leaves_file` at a concrete
marker-free page. -/
theorem inject_no_marker_fails_and_leaves_file_witness :
    reSearchPlaceholder "<html><body>x</body></html>".toList = false ∧
    containsSub legacyMarker "<html><body>x</body></html>".toList = false ∧
    inject_content_at_comment_marker (some "<html><body>x</body></html>".toList) "NEW".toList
      = (false, some "<html><body>x</body></html>".toList) :=
  ⟨by decide, by decide,
   inject_no_marker_fails_and_leaves_file _ _ (by decide) (by decide)⟩

/-- C3 counterexample: on a page whose placeholder div contains a nested
`<div>`, the non-greedy pattern stops at the FIRST `</div>`, so after one
injection the nested trailing content (`ZED`) and the placeholder's own
closing tag survive in the file — the element is not replaced across its
full extent. -/
theorem inject_nested_placeholder_leaves_nested_content :
    inject_content_at_comment_marker
        (some "<div id=\"dak-api-content-placeholder\"><div>A</div>ZED</div>".toList)
        "NEW".toList
      = (false, some "NEWZED</div>".toList) ∧
    containsSub "ZED".toList "NEWZED</div>".toList = true := by
  constructor
  · decide
  · decide

/-- C3 as amended: the substitution replaces each placeholder span from the
opening tag up to (and including) the FIRST following `</div>`.  In
particular, when the placeholder's inner content contains no `</div>` (not
even one overlapping the closing boundary), the whole element — nested
content included — is replaced wholesale by the fragment, for any document in
which the pattern does not also match inside the preceding text. -/
theorem inject_placeholder_replaced_upto_first_close (pre inner post frag : List Char)
    (hpre : ∀ k, k < pre.length →
      matchAt ((pre ++ (phOpenTag ++ inner ++ litDivClose ++ post)).drop k) = none)
    (hin : ∀ k, k < inner.length →
      litDivClose.isPrefixOf ((inner ++ litDivClose ++ post).drop k) = false) :
    (inject_content_at_comment_marker
        (some (pre ++ (phOpenTag ++ inner ++ litDivClose ++ post))) frag).2 =
      some (pre ++ frag ++ reSubAll frag post) := by
  have hm := matchAt_openTag inner post hin
  have hsearch : reSearchPlaceholder (pre ++ (phOpenTag ++ inner ++ litDivClose ++ post)) = true :=
    reSearch_append_of_matchAt pre _ (by rw [hm]; rfl)
  have hsub : reSubAll frag (pre ++ (phOpenTag ++ inner ++ litDivClose ++ post)) =
      pre ++ frag ++ reSubAll frag post := by
    rw [reSubAll_skip frag pre _ hpre,
        reSubAll_match frag _ _ _ hm, List.append_assoc]
  rw [inject_content_at_comment_marker, if_pos hsearch, hsub]

/-- Witness for `inject_placeholder_replaced_upto_first_close` at a concrete
page: prefix `A`, nested-tag-free inner content `x`, trailing `B`. -/
theorem inject_placeholder_replaced_upto_first_close_witness :
    (∀ k, k < "A".toList.length →
      matchAt (("A".toList ++ (phOpenTag ++ "x".toList ++ litDivClose ++ "B".toList)).drop k)
        = none) ∧
    (∀ k, k < "x".toList.length →
      litDivClose.isPrefixOf (("x".toList ++ litDivClose ++ "B".toList).drop k) = false) ∧
    (inject_content_at_comment_marker
        (some ("A".toList ++ (phOpenTag ++ "x".toList ++ litDivClose ++ "B".toList)))
        "NEW".toList).2 =
      some ("A".toList ++ "NEW".toList ++ reSubAll "NEW".toList "B".toList) :=
  ⟨by decide, by decide,
   inject_placeholder_replaced_upto_first_close _ _ _ _ (by decide) (by decide)⟩

/-- C4: whenever a marker is found (placeholder pattern or legacy comment),
the substituted document is written to the file unconditionally (the write is
not rolled back), and the call returns `true` exactly when the length grew by
strictly more than 100. -/
theorem inject_returns_growth_check_and_writes (html content : List Char)
    (hfound : reSearchPlaceholder html = true ∨ containsSub legacyMarker html = true) :
    (inject_content_at_comment_marker (some html) content).2 =
      some (injectedHtml html content) ∧
    ((inject_content_at_comment_marker (some html) content).1 = true ↔
      ((injectedHtml html content).length : Int) - (html.length : Int) > 100) := by
  rcases hfound with h | h
  · rw [inject_content_at_comment_marker, injectedHtml, if_pos h, if_pos h]
    exact ⟨rfl, by simp⟩
  · by_cases hr : reSearchPlaceholder html = true
    · rw [inject_content_at_comment_marker, injectedHtml, if_pos hr, if_pos hr]
      exact ⟨rfl, by simp⟩
    · rw [inject_content_at_comment_marker, injectedHtml,
          if_neg hr, if_neg hr, if_pos (by rw [h])]
      exact ⟨rfl, by simp⟩

/-- Witness for `inject_returns_growth_check_and_writes`: a page carrying the
legacy marker, injected with a 130-character fragment. -/
theorem inject_returns_growth_check_and_writes_witness :
    (reSearchPlaceholder ("<html>".toList ++ legacyMarker ++ "</html>".toList) = true ∨
     containsSub legacyMarker ("<html>".toList ++ legacyMarker ++ "</html>".toList) = true) ∧
    ((inject_content_at_comment_marker
        (some ("<html>".toList ++ legacyMarker ++ "</html>".toList))
        (List.replicate 130 'A')).2 =
      some (injectedHtml ("<html>".toList ++ legacyMarker ++ "</html>".toList)
        (List.replicate 130 'A')) ∧
     ((inject_content_at_comment_marker
        (some ("<html>".toList ++ legacyMarker ++ "</html>".toList))
        (List.replicate 130 'A')).1 = true ↔
      ((injectedHtml ("<html>".toList ++ legacyMarker ++ "</html>".toList)
          (List.replicate 130 'A')).length : Int)
        - (("<html>".toList ++ legacyMarker ++ "</html>".toList).length : Int) > 100)) :=
  ⟨Or.inr (by decide),
   inject_returns_growth_check_and_writes _ _ (Or.inr (by decide))⟩

/-! ## Claims about `SchemaDetector.find_schema_files` -/

theorem scanSchemaDir_eq (dir : List Char) (listing : List (List Char)) :
    scanSchemaDir dir listing =
      ⟨(listing.filter
          (fun f => isSchemaFile f && (classifySchema f == SchemaRole.valueset))).map (joinPath dir),
       (listing.filter
          (fun f => isSchemaFile f && (classifySchema f == SchemaRole.logical_model))).map (joinPath dir),
       (listing.filter
          (fun f => isSchemaFile f && (classifySchema f == SchemaRole.other))).map (joinPath dir)⟩ := by
  induction listing with
  | nil => rfl
  | cons f rest ih =>
    rw [scanSchemaDir, ih]
    by_cases hs : isSchemaFile f
    · cases hr : classifySchema f <;>
        simp [List.filter_cons, hs, hr]
    · simp [List.filter_cons, hs]

theorem length_filter_roles (listing : List (List Char)) :
    (listing.filter
        (fun f => isSchemaFile f && (classifySchema f == SchemaRole.valueset))).length +
    (listing.filter
        (fun f => isSchemaFile f && (classifySchema f == SchemaRole.logical_model))).length +
    (listing.filter
        (fun f => isSchemaFile f && (classifySchema f == SchemaRole.other))).length =
    (listing.filter isSchemaFile).length := by
  induction listing with
  | nil => rfl
  | cons f rest ih =>
    by_cases hs : isSchemaFile f
    · cases hr : classifySchema f <;>
        simp [List.filter_cons, hs, hr] <;> omega
    · simp [List.filter_cons, hs, ih]

/-- C1: with an existing scan directory, every listed file carrying the
`.schema.json` suffix is placed in exactly one of the three role buckets (the
buckets are the listing filtered by disjoint role predicates, in discovery
order with no re-sorting, each entry joined to the directory), and the three
bucket sizes add up to the number of suffix-matching files in the listing. -/
theorem find_schema_files_complete (dir : List Char) (listing : List (List Char)) :
    (find_schema_files true dir listing).valueset =
      (listing.filter
        (fun f => isSchemaFile f && (classifySchema f == SchemaRole.valueset))).map (joinPath dir) ∧
    (find_schema_files true dir listing).logical_model =
      (listing.filter
        (fun f => isSchemaFile f && (classifySchema f == SchemaRole.logical_model))).map (joinPath dir) ∧
    (find_schema_files true dir listing).other =
      (listing.filter
        (fun f => isSchemaFile f && (classifySchema f == SchemaRole.other))).map (joinPath dir) ∧
    (find_schema_files true dir listing).valueset.length +
      (find_schema_files true dir listing).logical_model.length +
      (find_schema_files true dir listing).other.length =
      (listing.filter isSchemaFile).length := by
  have h := scanSchemaDir_eq dir listing
  rw [show find_schema_files true dir listing = scanSchemaDir dir listing from rfl, h]
  exact ⟨rfl, rfl, rfl, by simp [length_filter_roles listing]⟩

theorem cs_not_vs (f : List Char) (h : csItemMark.isPrefixOf f = true) :
    vsItemMark.isPrefixOf f = false := by
  by_contra hv
  rw [Bool.not_eq_false] at hv
  obtain ⟨r1, hr1⟩ := List.isPrefixOf_iff_prefix.mp h
  obtain ⟨r2, hr2⟩ := List.isPrefixOf_iff_prefix.mp hv
  have h12 : csItemMark ++ r1 = vsItemMark ++ r2 := by rw [hr1, hr2]
  rw [show csItemMark = 'C' :: "odeSystem-".toList from rfl,
      show vsItemMark = 'V' :: "alueSet-".toList from rfl] at h12
  rw [List.cons_append, List.cons_append] at h12
  injection h12 with hc _
  exact absurd hc (by decide)

theorem classifySchema_eq_other_iff (f : List Char) :
    classifySchema f = SchemaRole.other ↔ csItemMark.isPrefixOf f = true := by
  constructor
  · intro h
    rw [classifySchema] at h
    split_ifs at h with h1 h2 h3 h4
    rw [Bool.not_eq_true] at h1
    rw [h1] at h4
    simpa using h4
  · intro h
    have hvs : vsItemMark.isPrefixOf f = false := cs_not_vs f h
    have h2 : f ≠ vsEnumName := by
      intro hx
      rw [hx] at h
      exact absurd h (by decide)
    have h3 : f ≠ lmEnumName := by
      intro hx
      rw [hx] at h
      exact absurd h (by decide)
    rw [classifySchema, if_neg (by rw [hvs]; simp), if_neg h2, if_neg h3,
        if_neg (by rw [h]; simp)]

/-- C10: the `other` bucket holds exactly the suffix-matching files whose
names start with `CodeSystem-`: every `CodeSystem-`-prefixed schema file is
classified `other`, and everything classified `other` is
`CodeSystem-`-prefixed. -/
theorem find_schema_files_other_is_codesystem (dir : List Char) (listing : List (List Char)) :
    (find_schema_files true dir listing).other =
      (listing.filter
        (fun f => isSchemaFile f && csItemMark.isPrefixOf f)).map (joinPath dir) := by
  rw [show find_schema_files true dir listing = scanSchemaDir dir listing from rfl,
      scanSchemaDir_eq dir listing]
  show (listing.filter
      (fun f => isSchemaFile f && (classifySchema f == SchemaRole.other))).map (joinPath dir) = _
  congr 1
  apply List.filter_congr
  intro f _
  by_cases hcs : csItemMark.isPrefixOf f = true
  · rw [hcs, beq_iff_eq.mpr ((classifySchema_eq_other_iff f).mpr hcs)]
  · rw [Bool.not_eq_true] at hcs
    rw [hcs]
    have : (classifySchema f == SchemaRole.other) = false := by
      rw [beq_eq_false_iff_ne]
      intro hx
      rw [(classifySchema_eq_other_iff f).mp hx] at hcs
      exact absurd hcs (by simp)
    rw [this]

theorem joinPath_inj (dir a b : List Char) (h : joinPath dir a = joinPath dir b) : a = b := by
  rw [joinPath, joinPath] at h
  have h2 := List.append_cancel_left h
  injection h2

/-- C7 counterexample: the source has no separate catalog bucket — the two
enumeration filenames are appended to the same per-item lists that downstream
per-item synthesis and catalog generation iterate over.  Concretely,
`ValueSets.schema.json` appears in the `valueset` item list (and
`LogicalModels.schema.json` in the `logical_model` item list), contradicting
the claim that neither filename appears there. -/
theorem enum_schema_lands_in_item_bucket :
    "output/schemas/ValueSets.schema.json".toList ∈
      (find_schema_files true "output/schemas".toList
        ["ValueSets.schema.json".toList]).valueset ∧
    "output/schemas/LogicalModels.schema.json".toList ∈
      (find_schema_files true "output/schemas".toList
        ["LogicalModels.schema.json".toList]).logical_model := by
  constructor
  · decide
  · decide

/-- C7 as amended: `find_schema_files` routes `ValueSets.schema.json` to the
`valueset` bucket and `LogicalModels.schema.json` to the `logical_model`
bucket — the matching kind's single list (which downstream consumption shares
with per-item schemas) — and to neither of the other two buckets. -/
theorem enum_filenames_routed_to_matching_kind (dir : List Char) (listing : List (List Char))
    (hvs : vsEnumName ∈ listing) (hlm : lmEnumName ∈ listing) :
    joinPath dir vsEnumName ∈ (find_schema_files true dir listing).valueset ∧
    joinPath dir vsEnumName ∉ (find_schema_files true dir listing).logical_model ∧
    joinPath dir vsEnumName ∉ (find_schema_files true dir listing).other ∧
    joinPath dir lmEnumName ∈ (find_schema_files true dir listing).logical_model ∧
    joinPath dir lmEnumName ∉ (find_schema_files true dir listing).valueset ∧
    joinPath dir lmEnumName ∉ (find_schema_files true dir listing).other := by
  rw [show find_schema_files true dir listing = scanSchemaDir dir listing from rfl,
      scanSchemaDir_eq dir listing]
  refine ⟨?_, ?_, ?_, ?_, ?_, ?_⟩
  · exact List.mem_map_of_mem _ (List.mem_filter.mpr ⟨hvs, by decide⟩)
  · intro hx
    obtain ⟨g, hg, hje⟩ := List.mem_map.mp hx
    rw [joinPath_inj dir g vsEnumName hje] at hg
    exact absurd (List.mem_filter.mp hg).2 (by decide)
  · intro hx
    obtain ⟨g, hg, hje⟩ := List.mem_map.mp hx
    rw [joinPath_inj dir g vsEnumName hje] at hg
    exact absurd (List.mem_filter.mp hg).2 (by decide)
  · exact List.mem_map_of_mem _ (List.mem_filter.mpr ⟨hlm, by decide⟩)
  · intro hx
    obtain ⟨g, hg, hje⟩ := List.mem_map.mp hx
    rw [joinPath_inj dir g lmEnumName hje] at hg
    exact absurd (List.mem_filter.mp hg).2 (by decide)
  · intro hx
    obtain ⟨g, hg, hje⟩ := List.mem_map.mp hx
    rw [joinPath_inj dir g lmEnumName hje] at hg
    exact absurd (List.mem_filter.mp hg).2 (by decide)

/-- Witness for `enum_filenames_routed_to_matching_kind` on a concrete
listing holding both enumeration filenames. -/
theorem enum_filenames_routed_to_matching_kind_witness :
    vsEnumName ∈ [vsEnumName, lmEnumName] ∧ lmEnumName ∈ [vsEnumName, lmEnumName] ∧
    (joinPath "d".toList vsEnumName ∈
        (find_schema_files true "d".toList [vsEnumName, lmEnumName]).valueset ∧
     joinPath "d".toList vsEnumName ∉
        (find_schema_files true "d".toList [vsEnumName, lmEnumName]).logical_model ∧
     joinPath "d".toList vsEnumName ∉
        (find_schema_files true "d".toList [vsEnumName, lmEnumName]).other ∧
     joinPath "d".toList lmEnumName ∈
        (find_schema_files true "d".toList [vsEnumName, lmEnumName]).logical_model ∧
     joinPath "d".toList lmEnumName ∉
        (find_schema_files true "d".toList [vsEnumName, lmEnumName]).valueset ∧
     joinPath "d".toList lmEnumName ∉
        (find_schema_files true "d".toList [vsEnumName, lmEnumName]).other) :=
  ⟨by decide, by decide,
   enum_filenames_routed_to_matching_kind "d".toList [vsEnumName, lmEnumName]
     (by decide) (by decide)⟩

/-! ## Claims about `OpenAPIWrapper.create_wrapper_for_schema` -/

set_option maxRecDepth 40000 in
/-- C5 counterexample: the wrapper bytes do NOT depend only on the parsed
schema document and the schema filename — the `schema_type` argument selects
different summary/description strings, so the same schema content and
filename produce different specification bytes for `"valueset"` versus
`"logical_model"`. -/
theorem create_wrapper_depends_on_schema_type :
    serializeJson (create_wrapper_spec [] "Foo.schema.json".toList "valueset".toList) ≠
    serializeJson (create_wrapper_spec [] "Foo.schema.json".toList "logical_model".toList) := by
  decide

/-- C5 as amended: the wrapper is a deterministic pure function of the parsed
schema document, the schema filename and the `schema_type` argument; its
`info.version` is the fixed `"1.0.0"`; and the write overwrites
unconditionally, so on a schema path carrying the `.schema.json` suffix a
second run reads the same unchanged schema file and rewrites byte-identical
output — the file system and the returned path are unchanged by the second
run. -/
theorem create_wrapper_idempotent (parse : List Char → Option JsonVal) (fs : Fs)
    (schema_path schema_type output_dir : List Char)
    (hsuf : schemaSuffix.isSuffixOf schema_path = true) :
    create_wrapper_for_schema parse
        (create_wrapper_for_schema parse fs schema_path schema_type output_dir).1
        schema_path schema_type output_dir =
      create_wrapper_for_schema parse fs schema_path schema_type output_dir ∧
    (∀ (kvs : List (List Char × JsonVal)) (fn st : List Char),
      (jLookup (create_wrapper_spec kvs fn st) "info".toList).bind
        (fun i => jLookup i "version".toList) = some (.str "1.0.0".toList)) := by
  constructor
  · cases hread : fs schema_path with
    | none => simp only [create_wrapper_for_schema, hread]
    | some raw =>
      cases hp : parse raw with
      | none => simp only [create_wrapper_for_schema, hread, hp]
      | some schema =>
        cases schema with
        | null => simp only [create_wrapper_for_schema, hread, hp]
        | bool b => simp only [create_wrapper_for_schema, hread, hp]
        | int n => simp only [create_wrapper_for_schema, hread, hp]
        | str s => simp only [create_wrapper_for_schema, hread, hp]
        | arr xs => simp only [create_wrapper_for_schema, hread, hp]
        | obj kvs =>
          have hne : joinPath output_dir
              (replaceAll schemaSuffix [] (basenameL schema_path) ++ ".openapi.json".toList)
              ≠ schema_path := by
            intro hx
            have h1 : schemaSuffix <:+ schema_path := List.isSuffixOf_iff_suffix.mp hsuf
            have h2 : ".openapi.json".toList <:+ schema_path := by
              rw [← hx]
              exact ⟨output_dir ++ '/' :: replaceAll schemaSuffix [] (basenameL schema_path),
                by simp [joinPath, List.append_assoc]⟩
            have h3 : schemaSuffix <:+ ".openapi.json".toList :=
              List.suffix_of_suffix_length_le h1 h2 (by decide)
            exact absurd h3 (by decide)
          have hread2 : fsWrite fs
              (joinPath output_dir
                (replaceAll schemaSuffix [] (basenameL schema_path) ++ ".openapi.json".toList))
              (serializeJson (create_wrapper_spec kvs (basenameL schema_path) schema_type))
              schema_path = some raw := by
            rw [fsWrite, if_neg (fun hx => hne hx.symm)]
            exact hread
          simp only [create_wrapper_for_schema, hread, hp, hread2]
          have hw : fsWrite
              (fsWrite fs
                (joinPath output_dir
                  (replaceAll schemaSuffix [] (basenameL schema_path) ++ ".openapi.json".toList))
                (serializeJson (create_wrapper_spec kvs (basenameL schema_path) schema_type)))
              (joinPath output_dir
                (replaceAll schemaSuffix [] (basenameL schema_path) ++ ".openapi.json".toList))
              (serializeJson (create_wrapper_spec kvs (basenameL schema_path) schema_type)) =
            fsWrite fs
              (joinPath output_dir
                (replaceAll schemaSuffix [] (basenameL schema_path) ++ ".openapi.json".toList))
              (serializeJson (create_wrapper_spec kvs (basenameL schema_path) schema_type)) := by
            funext q
            simp only [fsWrite]
            by_cases hq : q = joinPath output_dir
              (replaceAll schemaSuffix [] (basenameL schema_path) ++ ".openapi.json".toList)
            · simp only [if_pos hq]
            · simp only [if_neg hq]
          rw [hw]
  · intro kvs fn st
    rfl

/-- Witness for `create_wrapper_idempotent` on a concrete one-file file
system. -/
theorem create_wrapper_idempotent_witness :
    schemaSuffix.isSuffixOf "schemas/Foo.schema.json".toList = true ∧
    (create_wrapper_for_schema parseEmptyObj
        (create_wrapper_for_schema parseEmptyObj fsFiveOneBad
          "schemas/Foo.schema.json".toList "valueset".toList "schemas".toList).1
        "schemas/Foo.schema.json".toList "valueset".toList "schemas".toList =
      create_wrapper_for_schema parseEmptyObj fsFiveOneBad
        "schemas/Foo.schema.json".toList "valueset".toList "schemas".toList ∧
     (∀ (kvs : List (List Char × JsonVal)) (fn st : List Char),
       (jLookup (create_wrapper_spec kvs fn st) "info".toList).bind
         (fun i => jLookup i "version".toList) = some (.str "1.0.0".toList))) :=
  ⟨by decide,
   create_wrapper_idempotent parseEmptyObj fsFiveOneBad
     "schemas/Foo.schema.json".toList "valueset".toList "schemas".toList (by decide)⟩

/-! ## Claims about `DAKApiHubGenerator.create_enumeration_schema` -/

theorem length_filterMap_isSome {α β : Type} (f : α → Option β) (l : List α) :
    (l.filterMap f).length = (l.filter (fun x => (f x).isSome)).length := by
  induction l with
  | nil => rfl
  | cons a t ih =>
    cases h : f a <;> simp [List.filterMap_cons, h, List.filter_cons, ih]

/-- C6: the catalog schema's `example` carries a `count` equal to the length
of its `schemas` array, which holds exactly the successfully read entries —
an item whose file read or parse fails contributes no entry and does not
abort catalog generation (the write still happens and the path is returned).
The final conjuncts instantiate the spec scenario: five listed files of which
one is unreadable yield exactly four entries and `count = 4`. -/
theorem create_enumeration_schema_counts (parse : List Char → Option JsonVal) (fs : Fs)
    (schema_type : List Char) (schema_files : List (List Char)) (output_dir : List Char) :
    (jLookup (enumerationSchemaVal schema_type
        (schema_files.filterMap (readEnumEntry parse fs schema_type))) "example".toList).bind
      (fun e => jLookup e "count".toList)
      = some (.int (schema_files.filterMap (readEnumEntry parse fs schema_type)).length) ∧
    (jLookup (enumerationSchemaVal schema_type
        (schema_files.filterMap (readEnumEntry parse fs schema_type))) "example".toList).bind
      (fun e => jLookup e "schemas".toList)
      = some (.arr (schema_files.filterMap (readEnumEntry parse fs schema_type))) ∧
    (schema_files.filterMap (readEnumEntry parse fs schema_type)).length
      = (schema_files.filter (fun p => (readEnumEntry parse fs schema_type p).isSome)).length ∧
    (create_enumeration_schema parse fs schema_type schema_files output_dir).2
      = some (joinPath output_dir (enumFilename schema_type)) ∧
    (fivePaths.filterMap (readEnumEntry parseEmptyObj fsFiveOneBad "valueset".toList)).length
      = 4 ∧
    (jLookup (enumerationSchemaVal "valueset".toList
        (fivePaths.filterMap (readEnumEntry parseEmptyObj fsFiveOneBad "valueset".toList)))
        "example".toList).bind
      (fun e => jLookup e "count".toList) = some (.int 4) :=
  ⟨rfl, rfl, length_filterMap_isSome _ _, rfl, by decide, rfl⟩

/-! ## Claims about `QAReporter` -/

theorem lookupKey_setKey_self (m : List (List Char × JsonVal)) (k : List Char) (v : JsonVal) :
    lookupKey k (setKey m k v) = some v := by
  induction m with
  | nil => simp [setKey, lookupKey]
  | cons kv rest ih =>
    obtain ⟨k', v'⟩ := kv
    by_cases h : k' = k
    · rw [setKey, if_pos h, lookupKey, if_pos h.symm]
    · rw [setKey, if_neg h, lookupKey, if_neg (fun hx => h hx.symm), ih]

theorem lookupKey_setKey_ne (m : List (List Char × JsonVal)) (k k' : List Char) (v : JsonVal)
    (hne : k ≠ k') :
    lookupKey k (setKey m k' v) = lookupKey k m := by
  induction m with
  | nil =>
    simp [setKey, lookupKey, hne]
  | cons kv rest ih =>
    obtain ⟨k0, v0⟩ := kv
    by_cases h : k0 = k'
    · rw [setKey, if_pos h, lookupKey, lookupKey]
      by_cases hk : k = k0
      · exact absurd (hk.trans h) hne
      · rw [if_neg hk, if_neg hk]
    · rw [setKey, if_neg h, lookupKey, lookupKey, ih]

/-- C8 counterexample: loading an external QA report that parses to the EMPTY
object is a successful load, but `if self.ig_publisher_qa:` is falsy on an
empty dict, so `finalize_report` returns this run's own report and no
namespaced `dak_api_processing` key is added — contradicting the claim that
a loaded external report always yields the external object plus that key. -/
theorem finalize_empty_external_no_namespaced_key :
    jLookup (finalize_report stEmptyExternal "completed".toList "T2".toList) dakKey = none :=
  rfl

/-- C8 as amended: when the loaded external QA document is a non-empty JSON
object (so `if self.ig_publisher_qa:` is truthy) and naming the stored
component reports succeeds, `finalize_report` returns the external object
with every top-level key other than `dak_api_processing` retaining its
external value verbatim, and `dak_api_processing` set (added, or overwriting
a pre-existing entry of that name) to the namespaced sub-tree holding the
stored component reports, this run's finalized report, and a summary whose
`total_dak_api_warnings` equals the number of warnings recorded during the
run. -/
theorem finalize_merge_preserves_external (st : QAState)
    (kvs : List (List Char × JsonVal)) (status cts : List Char)
    (preproc : List (List Char × JsonVal))
    (hig : st.ig_publisher_qa = some (.obj kvs)) (hne : kvs ≠ [])
    (hpre : buildPreprocMap 0 st.stored_preprocessing [] = some preproc) :
    (∀ (k : List Char) (v : JsonVal), k ≠ dakKey → lookupKey k kvs = some v →
      jLookup (finalize_report st status cts) k = some v) ∧
    jLookup (finalize_report st status cts) dakKey
      = some (dakSubtreeVal st status cts preproc) ∧
    ((jLookup (finalize_report st status cts) dakKey).bind
        (fun d => jLookup d "summary".toList)).bind
      (fun s => jLookup s "total_dak_api_warnings".toList)
      = some (.int st.warnings.length) := by
  have hfin : finalize_report st status cts
      = .obj (setKey kvs dakKey (dakSubtreeVal st status cts preproc)) := by
    simp only [finalize_report, hig]
    rw [if_pos (by simp [truthyJson, hne])]
    simp only [merge_with_ig_publisher_qa, hig, hpre]
  refine ⟨?_, ?_, ?_⟩
  · intro k v hk hv
    rw [hfin]
    show lookupKey k (setKey kvs dakKey (dakSubtreeVal st status cts preproc)) = some v
    rw [lookupKey_setKey_ne _ _ _ _ hk, hv]
  · rw [hfin]
    exact lookupKey_setKey_self kvs dakKey _
  · rw [hfin]
    have h2 : jLookup (JsonVal.obj (setKey kvs dakKey (dakSubtreeVal st status cts preproc)))
        dakKey = some (dakSubtreeVal st status cts preproc) :=
      lookupKey_setKey_self kvs dakKey _
    rw [h2]
    rfl

/-- Witness for `finalize_merge_preserves_external`: the spec scenario — the
prior report `{"ok": true}` merged after a run with one warning. -/
theorem finalize_merge_preserves_external_witness :
    stOneWarning.ig_publisher_qa = some (.obj [("ok".toList, .bool true)]) ∧
    ([("ok".toList, JsonVal.bool true)] : List (List Char × JsonVal)) ≠ [] ∧
    buildPreprocMap 0 stOneWarning.stored_preprocessing [] = some [] ∧
    ((∀ (k : List Char) (v : JsonVal), k ≠ dakKey →
        lookupKey k [("ok".toList, JsonVal.bool true)] = some v →
        jLookup (finalize_report stOneWarning "completed".toList "T2".toList) k = some v) ∧
     jLookup (finalize_report stOneWarning "completed".toList "T2".toList) dakKey
       = some (dakSubtreeVal stOneWarning "completed".toList "T2".toList []) ∧
     ((jLookup (finalize_report stOneWarning "completed".toList "T2".toList) dakKey).bind
         (fun d => jLookup d "summary".toList)).bind
       (fun s => jLookup s "total_dak_api_warnings".toList)
       = some (.int stOneWarning.warnings.length)) :=
  ⟨rfl, by simp, rfl,
   finalize_merge_preserves_external stOneWarning [("ok".toList, JsonVal.bool true)]
     "completed".toList "T2".toList [] rfl (by simp) rfl⟩

/-- C9 counterexample: two stored component reports both declare the name
`x` (`repA` with `n = 1` received first, then `repB` with `n = 2`); the
finalized merged report's namespaced map holds the LAST one — its `n` field
is 2, not 1 — so the first report received is NOT retained. -/
theorem merge_duplicate_component_not_first :
    (((jLookup (finalize_report stTwoReports "completed".toList "T2".toList) dakKey).bind
        (fun d => jLookup d "preprocessing_reports".toList)).bind
      (fun m => jLookup m "x".toList)).bind
      (fun r => jLookup r "n".toList) ≠ some (JsonVal.int 1) := by
  intro h
  rw [show (((jLookup (finalize_report stTwoReports "completed".toList "T2".toList) dakKey).bind
        (fun d => jLookup d "preprocessing_reports".toList)).bind
      (fun m => jLookup m "x".toList)).bind
      (fun r => jLookup r "n".toList) = some (JsonVal.int 2) from rfl] at h
  injection h with h1
  injection h1 with h2
  exact absurd h2 (by decide)

theorem buildPreprocMap_lookup (name : List Char) :
    ∀ (reports : List JsonVal) (i : Nat) (acc m : List (List Char × JsonVal)),
      buildPreprocMap i reports acc = some m →
      lookupKey name m =
        (match lastWithName i name reports with
         | some r => some r
         | none => lookupKey name acc) := by
  intro reports
  induction reports with
  | nil =>
    intro i acc m h
    have h' : some acc = some m := h
    rw [← Option.some.inj h']
    rfl
  | cons r rest ih =>
    intro i acc m h
    have h' : (match declaredName r i with
               | some nm => buildPreprocMap (i + 1) rest (setKey acc nm r)
               | none => none) = some m := h
    cases hd : declaredName r i with
    | none =>
      rw [hd] at h'
      exact Option.noConfusion h'
    | some nm =>
      rw [hd] at h'
      have h2 : buildPreprocMap (i + 1) rest (setKey acc nm r) = some m := h'
      rw [ih (i + 1) (setKey acc nm r) m h2, lastWithName]
      cases hl : lastWithName (i + 1) name rest with
      | some v => rfl
      | none =>
        rw [hd]
        by_cases hnm : nm = name
        · rw [hnm, if_pos rfl]
          exact lookupKey_setKey_self acc name r
        · rw [if_neg (fun hx => hnm (Option.some.inj hx))]
          exact lookupKey_setKey_ne acc name nm r (fun hx => hnm hx.symm)

/-- C9 as amended: merging component reports is last-write-wins — in the
namespaced map of the finalized merged report, each declared component/phase
name maps to the LAST stored report bearing that name (later reports
overwrite earlier ones under a duplicated key), as specified by
`lastWithName`. -/
theorem merge_preprocessing_last_write_wins (reports : List JsonVal)
    (m : List (List Char × JsonVal)) (name : List Char)
    (h : buildPreprocMap 0 reports [] = some m) :
    lookupKey name m = lastWithName 0 name reports := by
  rw [buildPreprocMap_lookup name reports 0 [] m h]
  cases hl : lastWithName 0 name reports with
  | some v => rfl
  | none => rfl

/-- Witness for `merge_preprocessing_last_write_wins` on the two same-named
reports `repA`, `repB`. -/
theorem merge_preprocessing_last_write_wins_witness :
    buildPreprocMap 0 [repA, repB] [] = some [("x".toList, repB)] ∧
    lookupKey "x".toList [("x".toList, repB)] = lastWithName 0 "x".toList [repA, repB] :=
  ⟨rfl, merge_preprocessing_last_write_wins [repA, repB] [("x".toList, repB)] "x".toList rfl⟩
